import Mathlib

/-
Verification development for the Ink Docs repository.

The embedding models the document-state hook (useDocument), the history
panel (HistoryPanel: fetchHistory and getUserName) and the editor shell
debounce (CollaborativeEditor onUpdate), together with the backend tables
and the update_updated_at_column trigger from the migration file.

Modelling conventions:
- timestamptz values are Nat instants (ISO strings compare like instants);
- every backend call resolves with a value: either success or an error
  value in the result object.  The supabase postgrest client returns
  errors in the result record and does not reject the awaited promise, so
  the only exceptions in the hook are the explicit throw statements of the
  source, each of which is modelled by jumping to the catch handler;
- a call whose result object is never destructured in the source (the
  four document_edits inserts) is modelled by dropping the error;
- toast notifications and console diagnostics are accumulated as lists of
  the message strings of the source (error payloads elided);
- a failing backend write leaves the table unchanged.
-/

namespace InkDocs

/-- Row of the documents table, which is also the shape of the local
Document record of the hook. -/
structure DocRow where
  id : String
  owner_id : String
  title : String
  content : Option String
  created_at : Nat
  updated_at : Nat
deriving Repr, DecidableEq

/-- Row of the document_edits table; user_id is nullable (ON DELETE SET NULL). -/
structure EditRow where
  id : String
  document_id : String
  user_id : Option String
  action : String
  content_snapshot : Option String
  created_at : Nat
deriving Repr, DecidableEq

/-- Row of the profiles table (display_name and email are nullable TEXT). -/
structure ProfileRow where
  user_id : String
  display_name : Option String
  email : Option String
deriving Repr, DecidableEq

/-- Backend state: the two tables the hook touches. -/
structure DB where
  documents : List DocRow
  edits : List EditRow
deriving Repr, DecidableEq

/-- Local state of the useDocument hook. -/
structure HookState where
  document : Option DocRow
  isLoading : Bool
  isSaving : Bool
deriving Repr, DecidableEq

/-- Observable outcome of one hook operation: final local state, final
backend state, toast notifications shown, console diagnostics written. -/
structure OpResult where
  state : HookState
  db : DB
  toasts : List String
  logs : List String
deriving Repr, DecidableEq

/-- Outcome of the early return `if (!document || !user) return;`. -/
def noopResult (st : HookState) (db : DB) : OpResult :=
  { state := st, db := db, toasts := [], logs := [] }

/-- The fixed welcome payload of initDocument (template literal of the
source, transcribed verbatim; \x27 is the apostrophe). -/
def defaultContent : String :=
  "\n<h1>Welcome to Ink Docs</h1>\n<p>A clean and elegant collaborative document editor, inspired by traditional ink wash aesthetics.</p>\n\n<h2>✨ Key Features</h2>\n<ul>\n  <li><strong>Rich Text Editing</strong> - Support for headings, bold, italic, underline, highlight and more</li>\n  <li><strong>Table Support</strong> - Insert and edit tables with ease</li>\n  <li><strong>Image Insertion</strong> - Upload images or insert via URL</li>\n  <li><strong>Collaboration</strong> - See who\x27s online and working with you</li>\n  <li><strong>PDF Export</strong> - Export your document with one click</li>\n</ul>\n\n<h2>📝 Try It Out</h2>\n<p>Start editing this text to experience the smooth editing flow.</p>\n"

/-- The rows the initDocument fetch sees: documents where owner_id equals
the user id (the .eq filter of the query). -/
def ownedDocs (db : DB) (uid : String) : List DocRow :=
  db.documents.filter (fun r => decide (r.owner_id = uid))

/-- Model of `.order("updated_at", ascending false).limit(1)`: the row
with the greatest updated_at (first such row on ties). -/
def pickLatest : List DocRow → Option DocRow
  | [] => none
  | d :: ds =>
    match pickLatest ds with
    | none => some d
    | some b => some (if d.updated_at < b.updated_at then b else d)

/-- Model of an insert into document_edits (content_snapshot is never
supplied by the hook). -/
def appendEdit (db : DB) (editId docId uid action : String) (createdAt : Nat) : DB :=
  { db with edits := db.edits ++
      [{ id := editId, document_id := docId, user_id := some uid, action := action,
         content_snapshot := none, created_at := createdAt }] }

/-- Model of `.update(payload).eq("id", docId)`: g is the payload applied
to the matching row, already composed with the update_updated_at_column
trigger that stamps updated_at. -/
def applyRowUpdate (db : DB) (docId : String) (g : DocRow → DocRow) : DB :=
  { db with documents := db.documents.map (fun r => if r.id = docId then g r else r) }

/-- Model of initDocument.  fetchOk, createOk, logOk say whether the
corresponding backend call succeeds; newDocId, newEditId and now stand
for the server-generated id and timestamp values of the created rows. -/
def initDocument (user : Option String) (st : HookState) (db : DB)
    (fetchOk createOk logOk : Bool) (newDocId newEditId : String) (now : Nat) : OpResult :=
  match user with
  | none => { state := { st with isLoading := false }, db := db, toasts := [], logs := [] }
  | some uid =>
    if fetchOk then
      match pickLatest (ownedDocs db uid) with
      | some d =>
        { state := { st with document := some d, isLoading := false },
          db := db, toasts := [], logs := [] }
      | none =>
        if createOk then
          let newDoc : DocRow :=
            { id := newDocId, owner_id := uid, title := "Untitled Document",
              content := some defaultContent, created_at := now, updated_at := now }
          let db1 : DB := { db with documents := db.documents ++ [newDoc] }
          let db2 : DB := if logOk then appendEdit db1 newEditId newDocId uid "created" now else db1
          { state := { st with document := some newDoc, isLoading := false },
            db := db2, toasts := [], logs := [] }
        else
          { state := { st with isLoading := false }, db := db,
            toasts := ["Failed to load document"], logs := ["Failed to init document"] }
    else
      { state := { st with isLoading := false }, db := db,
        toasts := ["Failed to load document"], logs := ["Failed to init document"] }

/-- Model of saveDocument.  The update payload is content only; the
backend trigger stamps updated_at with serverNow, while the optimistic
local record uses the client clock clientNow. -/
def saveDocument (st : HookState) (user : Option String) (db : DB)
    (content : String) (updateOk : Bool) (serverNow clientNow : Nat) : OpResult :=
  match st.document, user with
  | some doc, some _ =>
    if updateOk then
      { state := { st with
          document := some { doc with content := some content, updated_at := clientNow },
          isSaving := false },
        db := applyRowUpdate db doc.id
          (fun r => { r with content := some content, updated_at := serverNow }),
        toasts := [], logs := [] }
    else
      { state := { st with isSaving := false }, db := db,
        toasts := ["Failed to save document"], logs := ["Failed to save document"] }
  | _, _ => noopResult st db

/-- Model of updateTitle.  The local record gets the new title and nothing
else; the edit-log insert result is not inspected by the source, so a
failing append (logOk false) leaves no trace. -/
def updateTitle (st : HookState) (user : Option String) (db : DB)
    (title : String) (updateOk logOk : Bool) (editId : String) (serverNow editNow : Nat) : OpResult :=
  match st.document, user with
  | some doc, some uid =>
    if updateOk then
      let db1 := applyRowUpdate db doc.id
        (fun r => { r with title := title, updated_at := serverNow })
      let db2 := if logOk then appendEdit db1 editId doc.id uid "title_changed" editNow else db1
      { state := { st with document := some { doc with title := title } },
        db := db2, toasts := [], logs := [] }
    else
      { state := st, db := db,
        toasts := ["Failed to update title"], logs := ["Failed to update title"] }
  | _, _ => noopResult st db

/-- Model of logEdit.  The insert result is not inspected by the source;
the catch handler only fires for thrown exceptions, which the backend
call does not produce, so a failing append yields no toast and no
diagnostic entry. -/
def logEdit (st : HookState) (user : Option String) (db : DB)
    (action : String) (logOk : Bool) (editId : String) (now : Nat) : OpResult :=
  match st.document, user with
  | some doc, some uid =>
    if logOk then
      { state := st, db := appendEdit db editId doc.id uid action now,
        toasts := [], logs := [] }
    else
      { state := st, db := db, toasts := [], logs := [] }
  | _, _ => noopResult st db

/-- Case-insensitive suffix test over the character data of a string,
modelling the /i flag of the regex. -/
def hasSuffixCI (s : String) (suf : List Char) : Bool :=
  let l := s.data.map Char.toLower
  decide (l.drop (l.length - suf.length) = suf)

/-- Drop the last n characters of a string. -/
def dropLastChars (s : String) (n : Nat) : String :=
  ⟨s.data.take (s.data.length - n)⟩

/-- Model of `fileName.replace(regex dot (doc or docx) end, "")` with the
case-insensitive flag: strip one trailing ".docx" or ".doc" extension,
otherwise keep the name whole. -/
def stripDocExtension (fileName : String) : String :=
  if hasSuffixCI fileName ['.', 'd', 'o', 'c', 'x'] then dropLastChars fileName 5
  else if hasSuffixCI fileName ['.', 'd', 'o', 'c'] then dropLastChars fileName 4
  else fileName

/-- Model of importContent: one update carrying content and the derived
title, an optimistic local record with a client timestamp, then a
best-effort edit-log append whose result is not inspected. -/
def importContent (st : HookState) (user : Option String) (db : DB)
    (content fileName : String) (updateOk logOk : Bool) (editId : String)
    (serverNow clientNow editNow : Nat) : OpResult :=
  match st.document, user with
  | some doc, some uid =>
    if updateOk then
      let newTitle := stripDocExtension fileName
      let db1 := applyRowUpdate db doc.id
        (fun r => { r with content := some content, title := newTitle, updated_at := serverNow })
      let db2 := if logOk then appendEdit db1 editId doc.id uid "imported" editNow else db1
      { state := { st with
          document :=
            some { doc with content := some content, title := newTitle, updated_at := clientNow } },
        db := db2, toasts := [], logs := [] }
    else
      { state := st, db := db,
        toasts := ["Failed to import document"], logs := ["Failed to import document"] }
  | _, _ => noopResult st db

/-- Entry shape produced by fetchHistory after the in-memory join. -/
structure HistoryEntry where
  id : String
  action : String
  created_at : Nat
  user_id : Option String
  user_display_name : Option String
  user_email : Option String
deriving Repr, DecidableEq

/-- JS truthiness on a nullable string: null and the empty string are
falsy (models both the or-null coalescing and the if tests). -/
def truthy : Option String → Option String
  | some s => if s = "" then none else some s
  | none => none

/-- Model of email.split(at-sign)[0]: the text before the first at-sign,
or the whole string when none occurs. -/
def localPart (email : String) : String :=
  ⟨email.data.takeWhile (fun c => decide (c ≠ '@'))⟩

/-- Profile lookup by acting user id (the profilesMap of the source). -/
def lookupProfile (profiles : List ProfileRow) (uid : Option String) : Option ProfileRow :=
  match uid with
  | some u => profiles.find? (fun p => decide (p.user_id = u))
  | none => none

/-- Ordering used by the history query: newest created_at first. -/
def createdDesc (a b : EditRow) : Prop := b.created_at ≤ a.created_at

instance : DecidableRel createdDesc := fun a b => Nat.decLe b.created_at a.created_at

instance : IsTotal EditRow createdDesc :=
  ⟨fun a b => Nat.le_total b.created_at a.created_at⟩

instance : IsTrans EditRow createdDesc :=
  ⟨fun _ _ _ h1 h2 => Nat.le_trans h2 h1⟩

/-- Model of `.order("created_at", ascending false)`. -/
def sortByCreatedDesc (l : List EditRow) : List EditRow :=
  List.insertionSort createdDesc l

/-- Model of fetchHistory: fetch up to 50 newest edits of the document,
then join each with its profile; or-null coalescing makes an empty
display_name or email null in the combined record. -/
def fetchHistory (db : DB) (profiles : List ProfileRow) (documentId : String) : List HistoryEntry :=
  let page := (sortByCreatedDesc
      (db.edits.filter (fun e => decide (e.document_id = documentId)))).take 50
  page.map (fun e =>
    let prof := lookupProfile profiles e.user_id
    { id := e.id, action := e.action, created_at := e.created_at, user_id := e.user_id,
      user_display_name := truthy (prof.bind (fun p => p.display_name)),
      user_email := truthy (prof.bind (fun p => p.email)) })

/-- Model of getUserName: display name when truthy, else the local part of
the email when the email is truthy, else the fixed label. -/
def getUserName (edit : HistoryEntry) : String :=
  match truthy edit.user_display_name with
  | some n => n
  | none =>
    match truthy edit.user_email with
    | some e => localPart e
    | none => "Unknown user"

/-- Model of the debounced save of the editor shell: changes is the
chronological list of change events with the content the editor holds
after each; each change clears the pending timer and arms a new one for
delay later; a timer fires only when the next change is strictly later
than its due time, and the fired save carries the content the editor
holds at fire time, which in a fired (quiet) gap is the content of the
arming change. -/
def debounceSaves (delay : Nat) : List (Nat × String) → List (Nat × String)
  | [] => []
  | [(t, c)] => [(t + delay, c)]
  | (t, c) :: (t2, c2) :: rest =>
    if t2 ≤ t + delay then debounceSaves delay ((t2, c2) :: rest)
    else (t + delay, c) :: debounceSaves delay ((t2, c2) :: rest)

/-- Concrete row used by witness instances. -/
def sampleDoc : DocRow :=
  { id := "d1", owner_id := "u1", title := "T", content := some "hello",
    created_at := 0, updated_at := 3 }

/-- Concrete hook state used by witness instances. -/
def sampleState : HookState :=
  { document := some sampleDoc, isLoading := false, isSaving := false }

/-- Concrete backend state used by witness instances. -/
def sampleDB : DB := { documents := [sampleDoc], edits := [] }

/-- Concrete profiles for the history example: one user with a display
name, one with only an email. -/
def exampleProfiles : List ProfileRow :=
  [{ user_id := "uA", display_name := some "Alice", email := some "alice@x.com" },
   { user_id := "uB", display_name := none, email := some "bob@x.com" }]

/-- Concrete edit log for the history example: the edit by uA is newest. -/
def exampleDB : DB :=
  { documents := [],
    edits :=
      [{ id := "e1", document_id := "d1", user_id := some "uB", action := "edited",
         content_snapshot := none, created_at := 1 },
       { id := "e2", document_id := "d1", user_id := some "uA", action := "edited",
         content_snapshot := none, created_at := 2 }] }

/-- Frame relation of the save update: payload is content alone, the
trigger stamps updated_at, every other field and every other row is
untouched. -/
def contentFrame (docId content : String) (serverNow : Nat) (old new : DocRow) : Prop :=
  new.id = old.id ∧ new.title = old.title ∧ new.owner_id = old.owner_id ∧
  new.created_at = old.created_at ∧
  (old.id = docId → new.content = some content ∧ new.updated_at = serverNow) ∧
  (old.id ≠ docId → new = old)

/-- Frame relation of the title update: payload is title alone, the
trigger stamps updated_at, every other field and every other row is
untouched. -/
def titleFrame (docId title : String) (serverNow : Nat) (old new : DocRow) : Prop :=
  new.id = old.id ∧ new.owner_id = old.owner_id ∧ new.content = old.content ∧
  new.created_at = old.created_at ∧
  (old.id = docId → new.title = title ∧ new.updated_at = serverNow) ∧
  (old.id ≠ docId → new = old)

/-- Frame relation of the import update: payload is content and the
derived title, the trigger stamps updated_at, other fields and rows are
untouched. -/
def importFrame (docId content title : String) (serverNow : Nat) (old new : DocRow) : Prop :=
  new.id = old.id ∧ new.owner_id = old.owner_id ∧ new.created_at = old.created_at ∧
  (old.id = docId → new.content = some content ∧ new.title = title ∧ new.updated_at = serverNow) ∧
  (old.id ≠ docId → new = old)

theorem pickLatest_eq_none {l : List DocRow} : pickLatest l = none ↔ l = [] := by
  cases l with
  | nil => simp [pickLatest]
  | cons d ds =>
    simp only [pickLatest]
    cases h : pickLatest ds <;> simp

theorem pickLatest_mem : ∀ {l : List DocRow} {d : DocRow}, pickLatest l = some d → d ∈ l
  | [], _, h => by simp [pickLatest] at h
  | a :: as, d, h => by
    simp only [pickLatest] at h
    cases hp : pickLatest as with
    | none => rw [hp] at h; simp only [Option.some.injEq] at h; simp [h]
    | some b =>
      rw [hp] at h
      simp only [Option.some.injEq] at h
      by_cases hc : a.updated_at < b.updated_at
      · rw [if_pos hc] at h
        exact List.mem_cons_of_mem a (h ▸ pickLatest_mem hp)
      · rw [if_neg hc] at h
        simp [← h]

theorem pickLatest_max : ∀ {l : List DocRow} {d : DocRow}, pickLatest l = some d →
    ∀ x ∈ l, x.updated_at ≤ d.updated_at
  | [], _, _ => by simp
  | a :: as, d, h => by
    simp only [pickLatest] at h
    cases hp : pickLatest as with
    | none =>
      rw [hp] at h
      simp only [Option.some.injEq] at h
      subst h
      intro x hx
      rcases List.mem_cons.1 hx with rfl | hx
      · exact Nat.le_refl _
      · rw [pickLatest_eq_none.1 hp] at hx; simp at hx
    | some b =>
      rw [hp] at h
      simp only [Option.some.injEq] at h
      intro x hx
      rcases List.mem_cons.1 hx with rfl | hx
      · by_cases hc : x.updated_at < b.updated_at
        · rw [if_pos hc] at h; exact h ▸ Nat.le_of_lt hc
        · rw [if_neg hc] at h; exact h ▸ Nat.le_refl _
      · have hxb := pickLatest_max hp x hx
        by_cases hc : a.updated_at < b.updated_at
        · rw [if_pos hc] at h; exact h ▸ hxb
        · rw [if_neg hc] at h
          exact h ▸ Nat.le_trans hxb (Nat.le_of_not_lt hc)

theorem mem_ownedDocs {db : DB} {uid : String} {d : DocRow} (h : d ∈ ownedDocs db uid) :
    d ∈ db.documents ∧ d.owner_id = uid := by
  have := List.mem_filter.1 h
  exact ⟨this.1, of_decide_eq_true this.2⟩

theorem ownedDocs_mem {db : DB} {uid : String} {d : DocRow}
    (h1 : d ∈ db.documents) (h2 : d.owner_id = uid) : d ∈ ownedDocs db uid :=
  List.mem_filter.2 ⟨h1, decide_eq_true h2⟩

/-- Frame shape of a keyed row update: the matching rows get g applied,
every other row is untouched. -/
theorem forall2_rowUpdate (P : DocRow → DocRow → Prop) (docId : String) (g : DocRow → DocRow)
    (h1 : ∀ r : DocRow, r.id = docId → P r (g r)) (h2 : ∀ r : DocRow, r.id ≠ docId → P r r) :
    ∀ l : List DocRow, List.Forall₂ P l (l.map (fun r => if r.id = docId then g r else r))
  | [] => List.Forall₂.nil
  | r :: rs => by
    by_cases hc : r.id = docId
    · simpa [hc] using List.Forall₂.cons (h1 r hc) (forall2_rowUpdate P docId g h1 h2 rs)
    · simpa [hc] using List.Forall₂.cons (h2 r hc) (forall2_rowUpdate P docId g h1 h2 rs)

/-- Every row of an updated table that carries the targeted id has been
stamped by g (rows under a different id are returned unchanged). -/
theorem mem_rowUpdate_stamped (docId : String) (g : DocRow → DocRow)
    {l : List DocRow} {row : DocRow}
    (h : row ∈ l.map (fun r => if r.id = docId then g r else r)) (hrow : row.id = docId) :
    ∃ r ∈ l, r.id = docId ∧ row = g r := by
  rcases List.mem_map.1 h with ⟨r, hr, hrr⟩
  by_cases hc : r.id = docId
  · rw [if_pos hc] at hrr
    exact ⟨r, hr, hc, hrr.symm⟩
  · rw [if_neg hc] at hrr
    exact absurd (hrr ▸ hrow) hc

theorem sortByCreatedDesc_sorted (l : List EditRow) :
    List.Pairwise createdDesc (sortByCreatedDesc l) :=
  List.sorted_insertionSort createdDesc l

theorem mem_sortByCreatedDesc {l : List EditRow} {e : EditRow}
    (h : e ∈ sortByCreatedDesc l) : e ∈ l :=
  (List.perm_insertionSort createdDesc l).subset h

/-- In a burst where every change arrives no later than the due time of
the timer armed by its predecessor, each timer but the last is cleared,
so exactly the final content is saved, delay after the final change. -/
theorem debounceSaves_burst (delay : Nat) (x : Nat × String) (xs : List (Nat × String))
    (h : List.Chain' (fun a b : Nat × String => b.1 ≤ a.1 + delay) (x :: xs)) :
    debounceSaves delay (x :: xs) =
      [(((x :: xs).getLast (List.cons_ne_nil x xs)).1 + delay,
        ((x :: xs).getLast (List.cons_ne_nil x xs)).2)] := by
  induction xs generalizing x with
  | nil => rfl
  | cons y ys ih =>
    have hxy : y.1 ≤ x.1 + delay := (List.chain'_cons.1 h).1
    have hrest : List.Chain' (fun a b : Nat × String => b.1 ≤ a.1 + delay) (y :: ys) :=
      (List.chain'_cons.1 h).2
    have hgl : (x :: y :: ys).getLast (List.cons_ne_nil x (y :: ys)) =
        (y :: ys).getLast (List.cons_ne_nil y ys) := List.getLast_cons (List.cons_ne_nil y ys)
    rw [hgl]
    rw [show debounceSaves delay (x :: y :: ys) = debounceSaves delay (y :: ys) by
      cases x with
      | mk t c =>
        cases y with
        | mk t2 c2 => simp [debounceSaves, hxy]]
    exact ih y hrest

/-- Claim C1: for an authenticated user, initialization adopts the single
most recently updated document owned by that user when at least one
exists and creates nothing; when none exists it creates exactly one
document with the placeholder title "Untitled Document" and the fixed
default welcome content, adopts it as current state, and appends exactly
one edit-log entry with action "created". -/
theorem initDocument_adopts_or_creates (uid : String) (st : HookState) (db : DB)
    (newDocId newEditId : String) (now : Nat) :
    (∀ d : DocRow, pickLatest (ownedDocs db uid) = some d →
      (initDocument (some uid) st db true true true newDocId newEditId now).state.document = some d ∧
      (initDocument (some uid) st db true true true newDocId newEditId now).db = db ∧
      (initDocument (some uid) st db true true true newDocId newEditId now).toasts = [] ∧
      d ∈ db.documents ∧ d.owner_id = uid ∧
      (∀ x ∈ db.documents, x.owner_id = uid → x.updated_at ≤ d.updated_at)) ∧
    (ownedDocs db uid = [] →
      (initDocument (some uid) st db true true true newDocId newEditId now).db.documents =
        db.documents ++ [{ id := newDocId, owner_id := uid, title := "Untitled Document",
                           content := some defaultContent, created_at := now, updated_at := now }] ∧
      (initDocument (some uid) st db true true true newDocId newEditId now).db.edits =
        db.edits ++ [{ id := newEditId, document_id := newDocId, user_id := some uid,
                       action := "created", content_snapshot := none, created_at := now }] ∧
      (initDocument (some uid) st db true true true newDocId newEditId now).state.document =
        some { id := newDocId, owner_id := uid, title := "Untitled Document",
               content := some defaultContent, created_at := now, updated_at := now } ∧
      (initDocument (some uid) st db true true true newDocId newEditId now).toasts = []) := by
  constructor
  · intro d hd
    have hmem := mem_ownedDocs (pickLatest_mem hd)
    refine ⟨?_, ?_, ?_, hmem.1, hmem.2, ?_⟩
    · simp [initDocument, hd]
    · simp [initDocument, hd]
    · simp [initDocument, hd]
    · intro x hx hox
      exact pickLatest_max hd x (ownedDocs_mem hx hox)
  · intro h0
    have hp : pickLatest (ownedDocs db uid) = none := by rw [h0]; rfl
    refine ⟨?_, ?_, ?_, ?_⟩ <;> simp [initDocument, hp, appendEdit]

/-- Witness for C1: a user owning one document gets it adopted; a user
owning none gets a fresh document and one "created" log row. -/
theorem initDocument_adopts_or_creates_witness :
    (initDocument (some "u1") sampleState sampleDB true true true "nd" "ne" 9).state.document =
      some sampleDoc ∧
    (initDocument (some "u2") { document := none, isLoading := true, isSaving := false }
        { documents := [], edits := [] } true true true "nd" "ne" 9).db.edits =
      [{ id := "ne", document_id := "nd", user_id := some "u2", action := "created",
         content_snapshot := none, created_at := 9 }] := by
  constructor
  · exact ((initDocument_adopts_or_creates "u1" sampleState sampleDB "nd" "ne" 9).1
      sampleDoc (by decide)).1
  · have h := (initDocument_adopts_or_creates "u2"
      { document := none, isLoading := true, isSaving := false }
      { documents := [], edits := [] } "nd" "ne" 9).2 (by decide)
    simpa using h.2.1

/-- Claim C2: saving new content with a current document and user issues
an update whose payload is the content field alone, keyed by the document
id (the trigger stamps updated_at); on success local state becomes the
old record with the new content and a client-side refreshed timestamp,
computed without re-querying the backend; and no edit-log entry is ever
appended by the save itself. -/
theorem saveDocument_content_only (st : HookState) (doc : DocRow) (uid : String) (db : DB)
    (content : String) (serverNow clientNow : Nat) (hdoc : st.document = some doc) :
    (saveDocument st (some uid) db content true serverNow clientNow).state.document =
      some { doc with content := some content, updated_at := clientNow } ∧
    List.Forall₂ (contentFrame doc.id content serverNow) db.documents
      (saveDocument st (some uid) db content true serverNow clientNow).db.documents ∧
    (∀ b : Bool, (saveDocument st (some uid) db content b serverNow clientNow).db.edits = db.edits) ∧
    (saveDocument st (some uid) db content true serverNow clientNow).toasts = [] ∧
    (saveDocument st (some uid) db content true serverNow clientNow).state.isSaving = false := by
  refine ⟨?_, ?_, ?_, ?_, ?_⟩
  · simp [saveDocument, hdoc]
  · have hf := forall2_rowUpdate (contentFrame doc.id content serverNow) doc.id
      (fun r => { r with content := some content, updated_at := serverNow })
      (fun r hr => by simp [contentFrame, hr]) (fun r hr => by simp [contentFrame, hr])
      db.documents
    simpa [saveDocument, hdoc, applyRowUpdate] using hf
  · intro b
    cases b <;> simp [saveDocument, hdoc, applyRowUpdate]
  · simp [saveDocument, hdoc]
  · simp [saveDocument, hdoc]

/-- Witness for C2 at concrete inputs. -/
theorem saveDocument_content_only_witness :
    (saveDocument sampleState (some "u1") sampleDB "newText" true 7 9).state.document =
      some { sampleDoc with content := some "newText", updated_at := 9 } ∧
    (saveDocument sampleState (some "u1") sampleDB "newText" true 7 9).db.edits = [] := by
  have h := saveDocument_content_only sampleState sampleDoc "u1" sampleDB "newText" 7 9 rfl
  exact ⟨h.1, h.2.2.1 true⟩

/-- Claim C3: a title update with a current document and user whose
backend calls succeed mutates the title field of the keyed row (the
trigger stamps updated_at), appends exactly one edit-log entry with
action "title_changed", and sets the new title in local state. -/
theorem updateTitle_logs_title_changed (st : HookState) (doc : DocRow) (uid : String) (db : DB)
    (title editId : String) (serverNow editNow : Nat) (hdoc : st.document = some doc) :
    (updateTitle st (some uid) db title true true editId serverNow editNow).state.document =
      some { doc with title := title } ∧
    (updateTitle st (some uid) db title true true editId serverNow editNow).db.edits =
      db.edits ++ [{ id := editId, document_id := doc.id, user_id := some uid,
                     action := "title_changed", content_snapshot := none, created_at := editNow }] ∧
    List.Forall₂ (titleFrame doc.id title serverNow) db.documents
      (updateTitle st (some uid) db title true true editId serverNow editNow).db.documents ∧
    (updateTitle st (some uid) db title true true editId serverNow editNow).toasts = [] := by
  refine ⟨?_, ?_, ?_, ?_⟩
  · simp [updateTitle, hdoc]
  · simp [updateTitle, hdoc, appendEdit, applyRowUpdate]
  · have hf := forall2_rowUpdate (titleFrame doc.id title serverNow) doc.id
      (fun r => { r with title := title, updated_at := serverNow })
      (fun r hr => by simp [titleFrame, hr]) (fun r hr => by simp [titleFrame, hr])
      db.documents
    simpa [updateTitle, hdoc, appendEdit, applyRowUpdate] using hf
  · simp [updateTitle, hdoc]

/-- Witness for C3 at concrete inputs. -/
theorem updateTitle_logs_title_changed_witness :
    (updateTitle sampleState (some "u1") sampleDB "New name" true true "e2" 7 8).state.document =
      some { sampleDoc with title := "New name" } ∧
    (updateTitle sampleState (some "u1") sampleDB "New name" true true "e2" 7 8).db.edits =
      [{ id := "e2", document_id := "d1", user_id := some "u1", action := "title_changed",
         content_snapshot := none, created_at := 8 }] := by
  have h := updateTitle_logs_title_changed sampleState sampleDoc "u1" sampleDB "New name" "e2" 7 8 rfl
  exact ⟨h.1, by simpa using h.2.1⟩

/-- Claim C4: importing content with a current document and user sets the
title to the file name with one trailing ".doc" or ".docx" extension
stripped case-insensitively (names without such an extension are kept
whole), replaces the content, and on success appends exactly one edit-log
entry with action "imported"; e.g. "Report.docx" yields "Report". -/
theorem importContent_strips_extension (st : HookState) (doc : DocRow) (uid : String) (db : DB)
    (content fileName editId : String) (serverNow clientNow editNow : Nat)
    (hdoc : st.document = some doc) :
    (importContent st (some uid) db content fileName true true editId serverNow clientNow editNow).state.document =
      some { doc with content := some content, title := stripDocExtension fileName,
                      updated_at := clientNow } ∧
    (importContent st (some uid) db content fileName true true editId serverNow clientNow editNow).db.edits =
      db.edits ++ [{ id := editId, document_id := doc.id, user_id := some uid,
                     action := "imported", content_snapshot := none, created_at := editNow }] ∧
    List.Forall₂ (importFrame doc.id content (stripDocExtension fileName) serverNow) db.documents
      (importContent st (some uid) db content fileName true true editId serverNow clientNow editNow).db.documents ∧
    (importContent st (some uid) db content fileName true true editId serverNow clientNow editNow).toasts = [] ∧
    stripDocExtension "Report.docx" = "Report" ∧
    stripDocExtension "notes.DOC" = "notes" ∧
    (∀ name : String, hasSuffixCI name ['.', 'd', 'o', 'c', 'x'] = false →
      hasSuffixCI name ['.', 'd', 'o', 'c'] = false → stripDocExtension name = name) := by
  refine ⟨?_, ?_, ?_, ?_, by decide, by decide, ?_⟩
  · simp [importContent, hdoc]
  · simp [importContent, hdoc, appendEdit, applyRowUpdate]
  · have hf := forall2_rowUpdate
      (importFrame doc.id content (stripDocExtension fileName) serverNow) doc.id
      (fun r => { r with content := some content, title := stripDocExtension fileName,
                         updated_at := serverNow })
      (fun r hr => by simp [importFrame, hr]) (fun r hr => by simp [importFrame, hr])
      db.documents
    simpa [importContent, hdoc, appendEdit, applyRowUpdate] using hf
  · simp [importContent, hdoc]
  · intro name h1 h2
    simp [stripDocExtension, h1, h2]

/-- Witness for C4 at concrete inputs. -/
theorem importContent_strips_extension_witness :
    (importContent sampleState (some "u1") sampleDB "<p>x</p>" "Report.docx" true true "e3" 7 9 11).state.document =
      some { sampleDoc with content := some "<p>x</p>", title := "Report", updated_at := 9 } ∧
    (importContent sampleState (some "u1") sampleDB "<p>x</p>" "Report.docx" true true "e3" 7 9 11).db.edits =
      [{ id := "e3", document_id := "d1", user_id := some "u1", action := "imported",
         content_snapshot := none, created_at := 11 }] := by
  have h := importContent_strips_extension sampleState sampleDoc "u1" sampleDB
    "<p>x</p>" "Report.docx" "e3" 7 9 11 rfl
  refine ⟨?_, by simpa using h.2.1⟩
  have h1 := h.1
  rwa [show stripDocExtension "Report.docx" = "Report" from by decide] at h1

/-- Claim C5: a save whose backend update fails leaves the previously
loaded document untouched in local state, leaves the backend untouched
and raises a user-visible failure toast; a failed edit-log append raises
no toast at all. -/
theorem saveDocument_failure_handling (st : HookState) (doc : DocRow) (uid : String) (db : DB)
    (content action editId : String) (serverNow clientNow now : Nat)
    (hdoc : st.document = some doc) :
    (saveDocument st (some uid) db content false serverNow clientNow).state.document =
      st.document ∧
    (saveDocument st (some uid) db content false serverNow clientNow).db = db ∧
    (saveDocument st (some uid) db content false serverNow clientNow).toasts =
      ["Failed to save document"] ∧
    (logEdit st (some uid) db action false editId now).toasts = [] ∧
    (logEdit st (some uid) db action false editId now).state = st ∧
    (logEdit st (some uid) db action false editId now).db = db := by
  refine ⟨?_, ?_, ?_, ?_, ?_, ?_⟩ <;> simp [saveDocument, logEdit, hdoc]

/-- Witness for C5 at concrete inputs. -/
theorem saveDocument_failure_handling_witness :
    (saveDocument sampleState (some "u1") sampleDB "lost" false 7 9).state.document =
      some sampleDoc ∧
    (saveDocument sampleState (some "u1") sampleDB "lost" false 7 9).toasts =
      ["Failed to save document"] ∧
    (logEdit sampleState (some "u1") sampleDB "edited" false "e4" 5).toasts = [] := by
  have h := saveDocument_failure_handling sampleState sampleDoc "u1" sampleDB
    "lost" "edited" "e4" 7 9 5 rfl
  exact ⟨h.1, h.2.2.1, h.2.2.2.1⟩

/-- Claim C8: each hook operation called while there is no current
document or no authenticated user is a silent no-op: local state, backend
state, toasts and diagnostics are all untouched, for any would-be call
outcome. -/
theorem hook_noop_without_preconditions (st : HookState) (user : Option String) (db : DB)
    (content title action fileName editId : String) (b1 b2 : Bool)
    (serverNow clientNow editNow now : Nat)
    (h : st.document = none ∨ user = none) :
    saveDocument st user db content b1 serverNow clientNow = noopResult st db ∧
    updateTitle st user db title b1 b2 editId serverNow editNow = noopResult st db ∧
    logEdit st user db action b1 editId now = noopResult st db ∧
    importContent st user db content fileName b1 b2 editId serverNow clientNow editNow =
      noopResult st db := by
  rcases h with h | h
  · cases hu : user <;>
      refine ⟨?_, ?_, ?_, ?_⟩ <;>
        simp [saveDocument, updateTitle, logEdit, importContent, h]
  · cases hd : st.document <;>
      refine ⟨?_, ?_, ?_, ?_⟩ <;>
        simp [saveDocument, updateTitle, logEdit, importContent, h, hd]

/-- Witness for C8: a state with no current document no-ops. -/
theorem hook_noop_without_preconditions_witness :
    saveDocument { document := none, isLoading := false, isSaving := false } (some "u1")
      sampleDB "c" true 1 2 =
      noopResult { document := none, isLoading := false, isSaving := false } sampleDB ∧
    logEdit sampleState none sampleDB "edited" true "e5" 3 = noopResult sampleState sampleDB := by
  have h1 := hook_noop_without_preconditions
    { document := none, isLoading := false, isSaving := false } (some "u1") sampleDB
    "c" "t" "edited" "f" "e5" true true 1 2 3 4 (Or.inl rfl)
  have h2 := hook_noop_without_preconditions sampleState none sampleDB
    "c" "t" "edited" "f" "e5" true true 1 2 3 3 (Or.inr rfl)
  exact ⟨h1.1, h2.2.2.1⟩

/-- Claim C6: the history panel holds at most 50 edit rows of the current
document, ordered newest first; each row comes from the edit log of that
document; the actor name is the display name when truthy, else the local
part of the email when truthy, else "Unknown user"; and on the concrete
example the rows render as "Alice" then "bob", newest first. -/
theorem historyPanel_render (db : DB) (profiles : List ProfileRow) (documentId : String) :
    (fetchHistory db profiles documentId).length ≤ 50 ∧
    List.Pairwise (fun a b : HistoryEntry => b.created_at ≤ a.created_at)
      (fetchHistory db profiles documentId) ∧
    (∀ x ∈ fetchHistory db profiles documentId, ∃ e ∈ db.edits,
      e.document_id = documentId ∧ x.id = e.id ∧ x.action = e.action ∧
      x.created_at = e.created_at) ∧
    (∀ x : HistoryEntry,
      (∀ n : String, x.user_display_name = some n → n ≠ "" → getUserName x = n) ∧
      ((x.user_display_name = none ∨ x.user_display_name = some "") →
        ∀ m : String, x.user_email = some m → m ≠ "" → getUserName x = localPart m) ∧
      ((x.user_display_name = none ∨ x.user_display_name = some "") →
        (x.user_email = none ∨ x.user_email = some "") → getUserName x = "Unknown user")) ∧
    (fetchHistory exampleDB exampleProfiles "d1").map getUserName = ["Alice", "bob"] ∧
    (fetchHistory exampleDB exampleProfiles "d1").map (fun e => e.created_at) = [2, 1] := by
  refine ⟨?_, ?_, ?_, ?_, by decide, by decide⟩
  · simp only [fetchHistory, List.length_map]
    exact List.length_take_le 50 _
  · simp only [fetchHistory]
    rw [List.pairwise_map]
    have hs : List.Pairwise createdDesc
        (sortByCreatedDesc (db.edits.filter (fun e => decide (e.document_id = documentId)))) :=
      sortByCreatedDesc_sorted _
    exact (hs.sublist (List.take_sublist 50 _)).imp (fun h => h)
  · intro x hx
    simp only [fetchHistory, List.mem_map] at hx
    rcases hx with ⟨e, he, rfl⟩
    have he2 : e ∈ sortByCreatedDesc
        (db.edits.filter (fun z => decide (z.document_id = documentId))) :=
      List.mem_of_mem_take he
    have he3 := List.mem_filter.1 (mem_sortByCreatedDesc he2)
    exact ⟨e, he3.1, of_decide_eq_true he3.2, rfl, rfl, rfl⟩
  · intro x
    refine ⟨?_, ?_, ?_⟩
    · intro n hn hne
      simp [getUserName, truthy, hn, hne]
    · rintro (hd | hd) m hm hme <;> simp [getUserName, truthy, hd, hm, hme]
    · rintro (hd | hd) (he | he) <;> simp [getUserName, truthy, hd, he]

/-- Witness for C6: the concrete example evaluated through the theorem. -/
theorem historyPanel_render_witness :
    (fetchHistory exampleDB exampleProfiles "d1").map getUserName = ["Alice", "bob"] :=
  (historyPanel_render exampleDB exampleProfiles "d1").2.2.2.2.1

/-- Claim C7: under the 1.5 second debounce that resets on every change,
a burst whose consecutive changes each arrive within the delay produces
exactly one save carrying the final content, firing delay after the last
change; in particular changes at 0, 500 and 1000 milliseconds produce the
single save (2500, content at 1000). -/
theorem debounce_save_burst :
    (∀ (delay : Nat) (x : Nat × String) (xs : List (Nat × String)),
      List.Chain' (fun a b : Nat × String => b.1 ≤ a.1 + delay) (x :: xs) →
      debounceSaves delay (x :: xs) =
        [(((x :: xs).getLast (List.cons_ne_nil x xs)).1 + delay,
          ((x :: xs).getLast (List.cons_ne_nil x xs)).2)]) ∧
    debounceSaves 1500 [(0, "t0"), (500, "t05"), (1000, "t1")] = [(2500, "t1")] :=
  ⟨debounceSaves_burst, by decide⟩

/-- Witness for C7: the general burst lemma instantiated at a concrete
burst of two changes. -/
theorem debounce_save_burst_witness :
    debounceSaves 1500 [(0, "a"), (700, "b")] = [(2200, "b")] := by
  have h := debounce_save_burst.1 1500 (0, "a") [(700, "b")]
    (List.chain'_cons.mpr ⟨by norm_num, List.chain'_singleton _⟩)
  simpa using h

/-- C9 counterexample: an edit-log append that fails at the backend is
not recorded on the diagnostic channel: the claim requires a diagnostic
entry, but the run writes none (the insert result is never inspected and
the catch handler only sees thrown exceptions). -/
theorem editLog_failure_not_recorded :
    (logEdit sampleState (some "u1") sampleDB "edited" false "e9" 5).toasts = [] ∧
    (logEdit sampleState (some "u1") sampleDB "edited" false "e9" 5).logs = [] :=
  ⟨rfl, rfl⟩

/-- Claim C9 (amended): a backend failure of any of the four edit-log
appends (standalone logEdit, and the appends inside title update, import
and creation) is never surfaced to the user and leaves no trace at all:
no toast, no diagnostic entry, and no appended row. -/
theorem editLog_failures_silent (st : HookState) (doc : DocRow) (uid : String) (db : DB)
    (action title content fileName editId newDocId newEditId : String)
    (serverNow clientNow editNow now : Nat) (hdoc : st.document = some doc) :
    (logEdit st (some uid) db action false editId now).toasts = [] ∧
    (logEdit st (some uid) db action false editId now).logs = [] ∧
    (logEdit st (some uid) db action false editId now).db = db ∧
    (logEdit st (some uid) db action false editId now).state = st ∧
    (updateTitle st (some uid) db title true false editId serverNow editNow).toasts = [] ∧
    (updateTitle st (some uid) db title true false editId serverNow editNow).logs = [] ∧
    (updateTitle st (some uid) db title true false editId serverNow editNow).db.edits = db.edits ∧
    (importContent st (some uid) db content fileName true false editId serverNow clientNow editNow).toasts = [] ∧
    (importContent st (some uid) db content fileName true false editId serverNow clientNow editNow).logs = [] ∧
    (importContent st (some uid) db content fileName true false editId serverNow clientNow editNow).db.edits = db.edits ∧
    (ownedDocs db uid = [] →
      (initDocument (some uid) st db true true false newDocId newEditId now).toasts = [] ∧
      (initDocument (some uid) st db true true false newDocId newEditId now).logs = [] ∧
      (initDocument (some uid) st db true true false newDocId newEditId now).db.edits = db.edits) := by
  refine ⟨?_, ?_, ?_, ?_, ?_, ?_, ?_, ?_, ?_, ?_, ?_⟩ <;>
    first
      | simp [logEdit, updateTitle, importContent, hdoc, applyRowUpdate]
      | (intro h0
         have hp : pickLatest (ownedDocs db uid) = none := by rw [h0]; rfl
         refine ⟨?_, ?_, ?_⟩ <;> simp [initDocument, hp])

/-- Witness for C9 (amended) at concrete inputs, covering the standalone
append site and the creation site. -/
theorem editLog_failures_silent_witness :
    (logEdit sampleState (some "u1") sampleDB "edited" false "e9" 5).logs = [] ∧
    (initDocument (some "u2") sampleState { documents := [], edits := [] }
      true true false "nd" "ne" 9).db.edits = [] := by
  have h := editLog_failures_silent sampleState sampleDoc "u1" sampleDB
    "edited" "t" "c" "f" "e9" "nd" "ne" 7 9 11 5 rfl
  have h2 := editLog_failures_silent sampleState sampleDoc "u2"
    { documents := [], edits := [] } "edited" "t" "c" "f" "e9" "nd" "ne" 7 9 11 9 rfl
  exact ⟨h.2.1, (h2.2.2.2.2.2.2.2.2.2.2 (by decide)).2.2⟩

/-- Claim C10: a successful title update leaves the locally held
updated_at unchanged while the backend trigger stamps the row with the
server clock, so the local timestamp no longer matches the backend row
whenever the stamp differs from the old value; successful save and
successful import both refresh the local updated_at to the client clock. -/
theorem updateTitle_timestamp_frame (st : HookState) (doc : DocRow) (uid : String) (db : DB)
    (title content fileName editId : String) (logOk : Bool)
    (serverNow clientNow editNow : Nat) (hdoc : st.document = some doc) :
    (updateTitle st (some uid) db title true logOk editId serverNow editNow).state.document =
      some { doc with title := title } ∧
    ({ doc with title := title } : DocRow).updated_at = doc.updated_at ∧
    (∀ row ∈ (updateTitle st (some uid) db title true logOk editId serverNow editNow).db.documents,
      row.id = doc.id → row.updated_at = serverNow) ∧
    (saveDocument st (some uid) db content true serverNow clientNow).state.document =
      some { doc with content := some content, updated_at := clientNow } ∧
    (importContent st (some uid) db content fileName true logOk editId serverNow clientNow editNow).state.document =
      some { doc with content := some content, title := stripDocExtension fileName,
                      updated_at := clientNow } ∧
    (serverNow ≠ doc.updated_at →
      ∀ row ∈ (updateTitle st (some uid) db title true logOk editId serverNow editNow).db.documents,
        row.id = doc.id →
        ∀ d2 : DocRow,
          (updateTitle st (some uid) db title true logOk editId serverNow editNow).state.document =
            some d2 → d2.updated_at ≠ row.updated_at) := by
  have hdocs : (updateTitle st (some uid) db title true logOk editId serverNow editNow).db.documents =
      db.documents.map (fun r => if r.id = doc.id
        then { r with title := title, updated_at := serverNow } else r) := by
    cases logOk <;> simp [updateTitle, hdoc, applyRowUpdate, appendEdit]
  have hstate : (updateTitle st (some uid) db title true logOk editId serverNow editNow).state.document =
      some { doc with title := title } := by
    cases logOk <;> simp [updateTitle, hdoc]
  have hstamp : ∀ row ∈ (updateTitle st (some uid) db title true logOk editId serverNow editNow).db.documents,
      row.id = doc.id → row.updated_at = serverNow := by
    intro row hrow hid
    rw [hdocs] at hrow
    rcases mem_rowUpdate_stamped doc.id _ hrow hid with ⟨r, _, _, hr⟩
    rw [hr]
  refine ⟨hstate, rfl, hstamp, ?_, ?_, ?_⟩
  · simp [saveDocument, hdoc]
  · cases logOk <;> simp [importContent, hdoc]
  · intro hne row hrow hid d2 hd2
    rw [hstate] at hd2
    have : d2 = { doc with title := title } := Option.some.inj hd2.symm
    rw [this, hstamp row hrow hid]
    exact fun hcontra => hne (hcontra.symm)

/-- Witness for C10 at concrete inputs: after a title update the local
record keeps the old timestamp while the stored row carries the server
stamp, and the two differ. -/
theorem updateTitle_timestamp_frame_witness :
    (updateTitle sampleState (some "u1") sampleDB "N" true true "e6" 7 8).state.document =
      some { sampleDoc with title := "N" } ∧
    ({ sampleDoc with title := "N" } : DocRow).updated_at ≠
      ({ sampleDoc with title := "N", updated_at := 7 } : DocRow).updated_at := by
  have h := updateTitle_timestamp_frame sampleState sampleDoc "u1" sampleDB
    "N" "c" "f" "e6" true 7 9 8 rfl
  refine ⟨h.1, ?_⟩
  exact h.2.2.2.2.2 (by decide) { sampleDoc with title := "N", updated_at := 7 }
    (by decide) (by decide) { sampleDoc with title := "N" } h.1

end InkDocs
